import Mathlib

/-!
Verification of the anchor availability and adaptive rescheduling engine
(`app/agent/adaptive_scheduler.py`).

The embedding models Python datetimes as a wall-clock microsecond count
together with an optional fixed UTC offset in minutes (`none` models a naive
datetime, i.e. `tzinfo is None`).  Timezones are modelled as fixed UTC
offsets; `datetime.now(tz)` is modelled by an explicit `nowWall` parameter.
External fetches (Google Calendar, the Supabase task table) are modelled as
`Except Unit` values passed in by the caller: `.error ()` models the fetch
raising, `.ok l` models it returning rows `l`; a `Bool` parameter models
whether the `supabase` client object is present at all.
-/

set_option maxHeartbeats 1600000
set_option maxRecDepth 4000

def usPerSec : Int := 1000000

def usPerMin : Int := 60 * usPerSec

def usPerHour : Int := 60 * usPerMin

def usPerDay : Int := 24 * usPerHour

/-- Model of a Python `datetime`: `wall` is the wall-clock reading in
microseconds since an epoch midnight, `off` the UTC offset of its `tzinfo`
in minutes (`none` = naive). -/
structure PyDT where
  wall : Int
  off : Option Int
deriving DecidableEq, Repr

/-- `datetime.date()` as a day index (wall-clock calendar day). -/
def PyDT.date (t : PyDT) : Int := t.wall / usPerDay

/-- Microseconds since the wall-clock midnight of `t`'s day. -/
def PyDT.timeOfDay (t : PyDT) : Int := t.wall % usPerDay

def PyDT.hour (t : PyDT) : Int := t.timeOfDay / usPerHour

def PyDT.minute (t : PyDT) : Int := t.timeOfDay % usPerHour / usPerMin

def PyDT.second (t : PyDT) : Int := t.timeOfDay % usPerMin / usPerSec

def PyDT.microsecond (t : PyDT) : Int := t.timeOfDay % usPerSec

/-- Absolute instant (microseconds UTC) of an aware datetime; comparison and
subtraction of aware datetimes in Python compare these instants. -/
def PyDT.instant (t : PyDT) : Int := t.wall - (t.off.getD 0) * usPerMin

def PyDT.addMicros (t : PyDT) (m : Int) : PyDT := { t with wall := t.wall + m }

/-- `t + timedelta(minutes=m)` (wall-clock arithmetic, offset kept). -/
def PyDT.addMinutes (t : PyDT) (m : Int) : PyDT := t.addMicros (m * usPerMin)

/-- `t + timedelta(days=d)`. -/
def PyDT.addDays (t : PyDT) (d : Int) : PyDT := t.addMicros (d * usPerDay)

/-- `t.replace(hour=h, minute=m, second=0, microsecond=0)`: same calendar
day and tzinfo, time of day replaced. -/
def PyDT.replaceTime (t : PyDT) (h m : Int) : PyDT :=
  { wall := t.date * usPerDay + h * usPerHour + m * usPerMin, off := t.off }

/-- `busy.replace(tzinfo=tz)` applied only when naive, as in the
availability overlap loop. -/
def normTZ (tzoff : Int) (t : PyDT) : PyDT :=
  match t.off with
  | none => { t with off := some tzoff }
  | some _ => t

/-- `needle` occurs at the start of `hay` (character-exact). -/
def listStartsWith : List Char → List Char → Bool
  | _, [] => true
  | [], _ :: _ => false
  | a :: as, b :: bs => a == b && listStartsWith as bs

/-- Python's `needle in hay` substring test on character lists. -/
def containsSub : List Char → List Char → Bool
  | [], needle => needle.isEmpty
  | c :: t, needle => listStartsWith (c :: t) needle || containsSub t needle

/-- `s.lower()` as a character list (ASCII, as in the registry keys). -/
def lowerStr (s : String) : List Char := s.data.map Char.toLower

/-- An `{hour, minute}` entry of the anchor registry. -/
structure TimeConfig where
  hour : Int
  minute : Int
deriving DecidableEq, Repr

/-- `ANCHOR_TIME_MAP`, in its declared (and semantically load-bearing)
order. -/
def ANCHOR_TIME_MAP : List (String × TimeConfig) :=
  [("Morning Coffee", ⟨8, 0⟩),
   ("Morning", ⟨8, 0⟩),
   ("Start Laptop", ⟨9, 0⟩),
   ("Mid-Morning", ⟨10, 30⟩),
   ("Before Lunch", ⟨11, 30⟩),
   ("Lunch Break", ⟨12, 30⟩),
   ("After Lunch", ⟨13, 30⟩),
   ("Afternoon", ⟨14, 0⟩),
   ("Mid-Afternoon", ⟨15, 30⟩),
   ("End of Day", ⟨17, 0⟩),
   ("Evening", ⟨18, 0⟩),
   ("After Dinner", ⟨19, 30⟩),
   ("Before Bed", ⟨21, 0⟩),
   ("Night", ⟨21, 0⟩)]

/-- `key.lower() in anchor.lower()`. -/
def keyMatches (anchor key : String) : Bool :=
  containsSub (lowerStr anchor) (lowerStr key)

/-- The registry scan of `anchor_to_timestamp`: first key (in declared
order) whose lowercase text is a substring of the lowercase anchor name. -/
def findTimeConfig (anchor : String) : Option TimeConfig :=
  (ANCHOR_TIME_MAP.find? (fun p => keyMatches anchor p.1)).map Prod.snd

/-- Resolved `{hour, minute}`, defaulting to `{14, 0}` when no key
matches. -/
def resolveTime (anchor : String) : TimeConfig :=
  (findTimeConfig anchor).getD ⟨14, 0⟩

/-- `anchor_to_timestamp(anchor, timezone, base_date)` with an explicit
`base_date` (the only form the scheduler uses).  Note the `timezone`
argument is unused on this path: `base_date.replace(...)` keeps
`base_date`'s own tzinfo. -/
def anchor_to_timestamp (anchor : String) (timezone : Int) (base : PyDT) : PyDT :=
  base.replaceTime (resolveTime anchor).hour (resolveTime anchor).minute

/-- A busy interval dict `{"start": ..., "end": ...}` ("end" is a Lean
keyword, so the field is named `stop`). -/
structure Busy where
  start : PyDT
  stop : PyDT
deriving DecidableEq, Repr

/-- A row of the `tasks` table as the scheduler reads it.
`scheduled_at = none` models a missing/null field (falsy in Python),
`some none` a present but unparseable ISO string (so
`datetime.fromisoformat` raises), `some (some t)` a parseable one;
`estimated_minutes = none` models an absent field (the `dict.get`
default 15 applies). -/
structure TaskRow where
  id : Nat
  scheduled_at : Option (Option PyDT)
  estimated_minutes : Option Int
  status : String
  assigned_anchor : Option String
  scheduled_text : Option String
  was_rescheduled : Bool
deriving DecidableEq, Repr

/-- Result of the `fetch_raw_calendar_events` call under its
`try/except`: a raised exception degrades to the empty list. -/
def fetchedCalendar : Except Unit (List Busy) → List Busy
  | .ok l => l
  | .error _ => []

/-- Result of the Goally task fetch: nothing when `supabase` is absent,
the empty list when the query raises, otherwise the rows (the query
itself filters out `status == "completed"`). -/
def fetchedTasks (supabaseOK : Bool) (taskRes : Except Unit (List TaskRow)) :
    List TaskRow :=
  if supabaseOK then
    match taskRes with
    | .ok l => l.filter (fun t => t.status != "completed")
    | .error _ => []
  else []

/-- The per-row parse loop of `get_available_anchors`: rows with a truthy,
parseable `scheduled_at` become `[t_start, t_start + estimated_minutes)`
intervals; unparseable rows are skipped by the inner `try/except`. -/
def parseGoallyIntervals (rows : List TaskRow) : List Busy :=
  rows.filterMap (fun t =>
    match t.scheduled_at with
    | some (some ts) => some ⟨ts, ts.addMinutes (t.estimated_minutes.getD 15)⟩
    | _ => none)

/-- `all_busy = calendar_events + goally_intervals`. -/
def allBusy (calRes : Except Unit (List Busy)) (supabaseOK : Bool)
    (taskRes : Except Unit (List TaskRow)) : List Busy :=
  fetchedCalendar calRes ++ parseGoallyIntervals (fetchedTasks supabaseOK taskRes)

/-- The inner overlap loop: blocked iff some same-day busy interval
(naive bounds first made aware in the target timezone) satisfies
`anchor_dt < busy_end and anchor_end > busy_start`. -/
def anchorBlocked (tzoff : Int) (anchor_dt anchor_end : PyDT)
    (days_busy : List Busy) : Bool :=
  days_busy.any (fun busy =>
    let busy_start := normTZ tzoff busy.start
    let busy_end := normTZ tzoff busy.stop
    decide (anchor_dt.instant < busy_end.instant) &&
      decide (anchor_end.instant > busy_start.instant))

/-- The body of the day loop of `get_available_anchors` for one calendar
day: filter the aggregated busy intervals to those starting that day, then
keep the anchors not blocked (`datetime(y, m, d, tzinfo=tz)` is the aware
midnight `⟨current_date * usPerDay, some tzoff⟩`). -/
def dayAvailability (all_busy : List Busy) (anchors : List String)
    (task_duration_minutes tzoff : Int) (current_date : Int) : List String :=
  let days_busy := all_busy.filter (fun event => event.start.date == current_date)
  anchors.filter (fun anchor_name =>
    let anchor_dt := anchor_to_timestamp anchor_name tzoff
      ⟨current_date * usPerDay, some tzoff⟩
    let anchor_end := anchor_dt.addMinutes task_duration_minutes
    !(anchorBlocked tzoff anchor_dt anchor_end days_busy))

/-- `get_available_anchors(user_id, anchors, days_ahead,
task_duration_minutes, timezone)`.  The user id only routes the two
fetches, which are passed in as `calRes` / (`supabaseOK`, `taskRes`);
`now = datetime.now(tz)` is `⟨nowWall, some tzoff⟩`.  The Python dict
keyed by ISO date string is modelled as an association list keyed by day
index, in the same (insertion) order. -/
def get_available_anchors (calRes : Except Unit (List Busy))
    (supabaseOK : Bool) (taskRes : Except Unit (List TaskRow))
    (anchors : List String) (days_ahead : Nat)
    (task_duration_minutes : Int) (tzoff nowWall : Int) :
    List (Int × List String) :=
  let now : PyDT := ⟨nowWall, some tzoff⟩
  let start_date := now.date
  let all_busy := allBusy calRes supabaseOK taskRes
  (List.range days_ahead).map (fun (day_offset : Nat) =>
    let current_date := start_date + (day_offset : Int)
    (current_date,
     dayAvailability all_busy anchors task_duration_minutes tzoff current_date))

/-- The availability list of the day at offset `day_offset` (the
`day_offset`-th entry of the returned map). -/
def availabilityAt (calRes : Except Unit (List Busy)) (supabaseOK : Bool)
    (taskRes : Except Unit (List TaskRow)) (anchors : List String)
    (days_ahead : Nat) (task_duration_minutes : Int) (tzoff nowWall : Int)
    (day_offset : Nat) : List String :=
  ((get_available_anchors calRes supabaseOK taskRes anchors days_ahead
      task_duration_minutes tzoff nowWall).getD day_offset (0, [])).2

/-- The `{scheduled_at, scheduled_text}` result dict of the slot finder. -/
structure Slot where
  scheduled_at : PyDT
  scheduled_text : String
deriving DecidableEq, Repr

/-- The keyword classification of `find_next_available_slot` and the
candidate anchor list it selects (`is_morning` / `is_afternoon` /
`is_evening` checked in that order). -/
def timeSlotsFor (anchor_preference : String) : List String :=
  let anchor_lower := lowerStr anchor_preference
  let is_morning := ["morning", "breakfast", "coffee"].any
    (fun w => containsSub anchor_lower (lowerStr w))
  let is_afternoon := ["lunch", "afternoon"].any
    (fun w => containsSub anchor_lower (lowerStr w))
  let is_evening := ["evening", "dinner", "night", "bed"].any
    (fun w => containsSub anchor_lower (lowerStr w))
  if is_morning then ["Morning Coffee", "Mid-Morning"]
  else if is_afternoon then ["After Lunch", "Mid-Afternoon"]
  else if is_evening then ["End of Day", "Evening", "After Dinner"]
  else ["After Lunch", "Mid-Afternoon", "End of Day"]

/-- The flattened candidate sequence of the two nested search loops:
day offsets 0..6, and within each day the candidate anchors in list
order. -/
def candidateList (slots : List String) : List (Nat × String) :=
  (List.range 7).flatMap (fun d => slots.map (fun s => (d, s)))

/-- `search_date = (now + timedelta(days=1)).replace(hour=0, minute=0,
second=0, microsecond=0)`. -/
def searchStart (tzoff nowWall : Int) : PyDT :=
  ((PyDT.mk nowWall (some tzoff)).addDays 1).replaceTime 0 0

/-- The resolved timestamp of candidate `c = (day_offset, slot_name)`. -/
def slotTimeFor (tzoff : Int) (search_date : PyDT) (c : Nat × String) : PyDT :=
  anchor_to_timestamp c.2 tzoff (search_date.addDays c.1)

/-- The inner conflict scan of `find_next_available_slot` over the fetched
tasks, in list order, with its `break` on the first conflict.  It raises
(`.error ()`) when it reaches a row whose truthy `scheduled_at` fails to
parse, or parses to a naive datetime (aware − naive subtraction raises). -/
def scanTasks (slot_time : PyDT) (estimated_minutes : Int) :
    List TaskRow → Except Unit Bool
  | [] => .ok false
  | t :: rest =>
    match t.scheduled_at with
    | none => scanTasks slot_time estimated_minutes rest
    | some none => .error ()
    | some (some task_time) =>
      match task_time.off with
      | none => .error ()
      | some _ =>
        let task_duration := t.estimated_minutes.getD 15
        if |task_time.instant - slot_time.instant| <
            (task_duration + estimated_minutes) * usPerMin then .ok true
        else scanTasks slot_time estimated_minutes rest

/-- The candidate loop: first candidate whose scan finds no conflict;
a raised scan propagates to the enclosing `try`. -/
def tryCandidates (tasks : List TaskRow) (estimated_minutes : Int)
    (tzoff : Int) (search_date : PyDT) :
    List (Nat × String) → Except Unit (Option Slot)
  | [] => .ok none
  | c :: rest =>
    let slot_time := slotTimeFor tzoff search_date c
    match scanTasks slot_time estimated_minutes tasks with
    | .error _ => .error ()
    | .ok true => tryCandidates tasks estimated_minutes tzoff search_date rest
    | .ok false => .ok (some { scheduled_at := slot_time, scheduled_text := c.2 })

/-- `find_next_available_slot(user_id, anchor_preference,
estimated_minutes, timezone)`.  `supabaseOK = false` models an absent
client (the test fallback branch); `taskRes` the `select("*")` fetch;
a raised exception anywhere inside the `try` yields the
`{now + 1 day, anchor_preference}` fallback. -/
def find_next_available_slot (supabaseOK : Bool)
    (taskRes : Except Unit (List TaskRow)) (anchor_preference : String)
    (estimated_minutes : Int) (tzoff nowWall : Int) : Slot :=
  let now : PyDT := ⟨nowWall, some tzoff⟩
  if !supabaseOK then
    { scheduled_at := now.addDays 1, scheduled_text := anchor_preference }
  else
    match taskRes with
    | .error _ =>
      { scheduled_at := now.addDays 1, scheduled_text := anchor_preference }
    | .ok existing_tasks =>
      let search_date := searchStart tzoff nowWall
      match tryCandidates existing_tasks estimated_minutes tzoff search_date
          (candidateList (timeSlotsFor anchor_preference)) with
      | .ok (some slot) => slot
      | .ok none =>
        { scheduled_at := anchor_to_timestamp anchor_preference tzoff search_date,
          scheduled_text := anchor_preference }
      | .error _ =>
        { scheduled_at := now.addDays 1, scheduled_text := anchor_preference }

/-- `reschedule_task(task_id, user_id, reason, timezone)` acting on the
user's task rows `state` (both its own task lookup and the slot finder's
fetch read the current `state`; the Supabase update rewrites every row
with the given id).  Returns the success flag and the updated rows. -/
def reschedule_task (supabaseOK : Bool) (state : List TaskRow)
    (task_id : Nat) (tzoff nowWall : Int) : Bool × List TaskRow :=
  if !supabaseOK then (false, state)
  else
    match state.find? (fun t => t.id == task_id) with
    | none => (false, state)
    | some task =>
      let original_anchor := task.assigned_anchor.getD "After Lunch"
      let estimated_minutes := task.estimated_minutes.getD 15
      let new_slot := find_next_available_slot supabaseOK (.ok state)
        original_anchor estimated_minutes tzoff nowWall
      (true,
       state.map (fun t =>
         if t.id == task_id then
           { t with
             scheduled_at := some (some new_slot.scheduled_at),
             scheduled_text := some new_slot.scheduled_text,
             was_rescheduled := true }
         else t))

/-- The sweep loop of `detect_and_reschedule_missed_tasks` over the
snapshot fetched at entry, threading the mutable store `state`.
A row whose truthy `scheduled_at` fails to parse (or parses naive, so
the aware comparison raises) aborts the sweep: the outer `except`
returns `[]`, but updates already written stay. -/
def detectLoop (supabaseOK : Bool) (tzoff nowWall : Int) :
    List TaskRow → List TaskRow → List Nat → List Nat × List TaskRow
  | [], state, acc => (acc, state)
  | task :: rest, state, acc =>
    if task.status == "completed" then
      detectLoop supabaseOK tzoff nowWall rest state acc
    else
      match task.scheduled_at with
      | none => detectLoop supabaseOK tzoff nowWall rest state acc
      | some none => ([], state)
      | some (some task_time) =>
        match task_time.off with
        | none => ([], state)
        | some _ =>
          if task_time.instant <
              ((PyDT.mk nowWall (some tzoff)).addMinutes (-60)).instant then
            let r := reschedule_task supabaseOK state task.id tzoff nowWall
            detectLoop supabaseOK tzoff nowWall rest r.2
              (if r.1 then acc ++ [task.id] else acc)
          else detectLoop supabaseOK tzoff nowWall rest state acc

/-- `detect_and_reschedule_missed_tasks(user_id, timezone)`: returns the
ids of successfully rescheduled tasks and the resulting store. -/
def detect_and_reschedule_missed_tasks (supabaseOK : Bool)
    (state : List TaskRow) (tzoff nowWall : Int) : List Nat × List TaskRow :=
  if !supabaseOK then ([], state)
  else detectLoop supabaseOK tzoff nowWall state state []

/-! ### Helper lemmas -/

theorem usPerSec_eq : usPerSec = 1000000 := rfl

theorem usPerMin_eq : usPerMin = 60000000 := by norm_num [usPerMin, usPerSec_eq]

theorem usPerHour_eq : usPerHour = 3600000000 := by
  norm_num [usPerHour, usPerMin_eq]

theorem usPerDay_eq : usPerDay = 86400000000 := by
  norm_num [usPerDay, usPerHour_eq]

theorem getD_range_map {α : Type} (f : Nat → α) (d : α) {n i : Nat}
    (h : i < n) : ((List.range n).map f).getD i d = f i := by
  simp [List.getD_eq_getElem?_getD, List.getElem?_map, List.getElem?_range, h]

/-- `List.find?` returns the element at the first index satisfying the
predicate when all earlier indices fail it. -/
theorem find_first {α : Type} (p : α → Bool) (l : List α) :
    ∀ (i : Nat) (hi : i < l.length),
      p (l.get ⟨i, hi⟩) = true →
      (∀ j (hj : j < i), p (l.get ⟨j, Nat.lt_trans hj hi⟩) = false) →
      List.find? p l = some (l.get ⟨i, hi⟩) := by
  induction l with
  | nil => intro i hi _ _; exact absurd hi (Nat.not_lt_zero i)
  | cons a t ih =>
    intro i hi hp hprev
    cases i with
    | zero =>
      have hpa : p a = true := hp
      simp [List.find?_cons, hpa]
    | succ i =>
      have h0 : p a = false := hprev 0 (Nat.succ_pos i)
      rw [List.find?_cons, h0]
      exact ih i (Nat.lt_of_succ_lt_succ hi) hp
        (fun j hj => hprev (j + 1) (Nat.succ_lt_succ hj))

/-- Every resolved time of day is a valid wall-clock time (each registry
entry and the `{14, 0}` default are). -/
theorem resolveTime_bounds (anchor : String) :
    0 ≤ (resolveTime anchor).hour ∧ (resolveTime anchor).hour < 24 ∧
    0 ≤ (resolveTime anchor).minute ∧ (resolveTime anchor).minute < 60 := by
  unfold resolveTime findTimeConfig
  cases hf : ANCHOR_TIME_MAP.find? (fun p => keyMatches anchor p.1) with
  | none => simp
  | some p =>
    have hm := List.mem_of_find?_eq_some hf
    have hall : ∀ q ∈ ANCHOR_TIME_MAP,
        0 ≤ q.2.hour ∧ q.2.hour < 24 ∧ 0 ≤ q.2.minute ∧ q.2.minute < 60 := by
      decide
    simpa using hall p hm

/-- Component behavior of `replace(hour=h, minute=m, second=0,
microsecond=0)` for a valid time of day. -/
theorem replaceTime_spec (t : PyDT) (h m : Int) (hh0 : 0 ≤ h) (hh : h < 24)
    (hm0 : 0 ≤ m) (hm : m < 60) :
    (t.replaceTime h m).date = t.date ∧ (t.replaceTime h m).hour = h ∧
    (t.replaceTime h m).minute = m ∧ (t.replaceTime h m).second = 0 ∧
    (t.replaceTime h m).microsecond = 0 ∧ (t.replaceTime h m).off = t.off := by
  simp only [PyDT.replaceTime, PyDT.date, PyDT.hour, PyDT.minute, PyDT.second,
    PyDT.microsecond, PyDT.timeOfDay, usPerDay_eq, usPerHour_eq, usPerMin_eq,
    usPerSec_eq]
  refine ⟨?_, ?_, ?_, ?_, ?_, ?_⟩ <;> first
  | omega
  | trivial

/-- The slot finder's conflict predicate over a task list, as a single
boolean: some row has a parsed scheduled time within
`(estimated_minutes of the row, default 15) + estimated_minutes` minutes
of the slot. -/
def hasConflictB (tasks : List TaskRow) (estimated_minutes : Int)
    (s : PyDT) : Bool :=
  tasks.any (fun t =>
    match t.scheduled_at with
    | some (some x) =>
      decide (|x.instant - s.instant| <
        (t.estimated_minutes.getD 15 + estimated_minutes) * usPerMin)
    | _ => false)

/-- A task row whose `scheduled_at`, when truthy, parses to an aware
datetime (the rows on which the slot finder's scan cannot raise). -/
def wfRow (t : TaskRow) : Bool :=
  match t.scheduled_at with
  | none => true
  | some none => false
  | some (some x) => x.off.isSome

theorem hasConflictB_cons (t : TaskRow) (rest : List TaskRow)
    (est : Int) (s : PyDT) :
    hasConflictB (t :: rest) est s =
      ((match t.scheduled_at with
        | some (some x) =>
          decide (|x.instant - s.instant| <
            (t.estimated_minutes.getD 15 + est) * usPerMin)
        | _ => false) || hasConflictB rest est s) := by
  simp [hasConflictB, List.any_cons]

theorem scanTasks_spec (s : PyDT) (est : Int) :
    ∀ tasks : List TaskRow, (∀ t ∈ tasks, wfRow t = true) →
      scanTasks s est tasks = .ok (hasConflictB tasks est s) := by
  intro tasks
  induction tasks with
  | nil => intro _; rfl
  | cons t rest ih =>
    intro hwf
    have hwt : wfRow t = true := hwf t (List.mem_cons_self t rest)
    have hrest := ih (fun u hu => hwf u (List.mem_cons_of_mem _ hu))
    rw [hasConflictB_cons]
    cases hs : t.scheduled_at with
    | none => simpa [scanTasks, hs] using hrest
    | some o =>
      cases o with
      | none => simp [wfRow, hs] at hwt
      | some x =>
        cases hoff : x.off with
        | none => simp [wfRow, hs, hoff] at hwt
        | some z =>
          by_cases hc : |x.instant - s.instant| <
              (t.estimated_minutes.getD 15 + est) * usPerMin
          · simp [scanTasks, hs, hoff, hc]
          · simpa [scanTasks, hs, hoff, hc] using hrest

theorem tryCandidates_spec (tasks : List TaskRow) (est tzoff : Int)
    (sd : PyDT) (hwf : ∀ t ∈ tasks, wfRow t = true) :
    ∀ cands, tryCandidates tasks est tzoff sd cands =
      .ok ((cands.find?
          (fun c => !hasConflictB tasks est (slotTimeFor tzoff sd c))).map
        (fun c => { scheduled_at := slotTimeFor tzoff sd c,
                    scheduled_text := c.2 })) := by
  intro cands
  induction cands with
  | nil => rfl
  | cons c rest ih =>
    rw [List.find?_cons]
    by_cases hc : hasConflictB tasks est (slotTimeFor tzoff sd c) = true
    · simp only [tryCandidates, scanTasks_spec _ _ tasks hwf, hc]
      simpa [hc] using ih
    · have hc' : hasConflictB tasks est (slotTimeFor tzoff sd c) = false :=
        Bool.eq_false_iff.mpr hc
      simp only [tryCandidates, scanTasks_spec _ _ tasks hwf, hc']
      simp [hc']

/-- A slot returned by the candidate loop is one of the candidates. -/
theorem tryCandidates_mem (tasks : List TaskRow) (est tzoff : Int)
    (sd : PyDT) :
    ∀ (cands : List (Nat × String)) (slot : Slot),
      tryCandidates tasks est tzoff sd cands = .ok (some slot) →
      ∃ c ∈ cands, slot = { scheduled_at := slotTimeFor tzoff sd c,
                            scheduled_text := c.2 } := by
  intro cands
  induction cands with
  | nil => intro slot h; exact absurd h (by simp [tryCandidates])
  | cons c rest ih =>
    intro slot h
    rw [tryCandidates] at h
    cases hscan : scanTasks (slotTimeFor tzoff sd c) est tasks with
    | error e => rw [hscan] at h; exact absurd h (by simp)
    | ok b =>
      rw [hscan] at h
      cases b with
      | true =>
        obtain ⟨c', hc', he⟩ := ih slot h
        exact ⟨c', List.mem_cons_of_mem _ hc', he⟩
      | false =>
        refine ⟨c, List.mem_cons_self c rest, ?_⟩
        have h2 : Except.ok (ε := Unit)
            (some { scheduled_at := slotTimeFor tzoff sd c,
                    scheduled_text := c.2 }) = .ok (some slot) := h
        simpa using h2.symm

/-- Characterization of `find_next_available_slot` on well-formed rows:
the first candidate, in search order, without a conflict; the
preference-resolved fallback when every candidate conflicts. -/
theorem find_next_spec (tasks : List TaskRow) (pref : String)
    (est tzoff nowWall : Int) (hwf : ∀ t ∈ tasks, wfRow t = true) :
    find_next_available_slot true (.ok tasks) pref est tzoff nowWall =
      match (candidateList (timeSlotsFor pref)).find?
          (fun c => !hasConflictB tasks est
            (slotTimeFor tzoff (searchStart tzoff nowWall) c)) with
      | some c =>
        { scheduled_at := slotTimeFor tzoff (searchStart tzoff nowWall) c,
          scheduled_text := c.2 }
      | none =>
        { scheduled_at :=
            anchor_to_timestamp pref tzoff (searchStart tzoff nowWall),
          scheduled_text := pref } := by
  rw [find_next_available_slot]
  simp only [Bool.not_true, Bool.false_eq_true, if_false]
  rw [tryCandidates_spec tasks est tzoff (searchStart tzoff nowWall) hwf]
  cases (candidateList (timeSlotsFor pref)).find?
      (fun c => !hasConflictB tasks est
        (slotTimeFor tzoff (searchStart tzoff nowWall) c)) with
  | none => simp
  | some c => simp

/-- Every candidate slot time lies strictly after `now` (wall clock) and
carries the user timezone: candidates live on `search_date + day_offset`
with a valid nonnegative time of day, and `search_date` is tomorrow's
midnight. -/
theorem slotTimeFor_wall (tzoff nowWall : Int) (c : Nat × String) :
    nowWall < (slotTimeFor tzoff (searchStart tzoff nowWall) c).wall ∧
    (slotTimeFor tzoff (searchStart tzoff nowWall) c).off = some tzoff := by
  obtain ⟨h0, h24, m0, m60⟩ := resolveTime_bounds c.2
  simp only [slotTimeFor, anchor_to_timestamp, searchStart, PyDT.replaceTime,
    PyDT.addDays, PyDT.addMicros, PyDT.date, usPerDay_eq, usPerHour_eq,
    usPerMin_eq]
  constructor
  · have hc1 : (0 : Int) ≤ (c.1 : Int) := Int.natCast_nonneg c.1
    omega
  · trivial

/-- The fallback slot time (original preference on the search-start date)
also lies strictly after `now` and carries the user timezone. -/
theorem fallback_wall (tzoff nowWall : Int) (pref : String) :
    nowWall < (anchor_to_timestamp pref tzoff (searchStart tzoff nowWall)).wall ∧
    (anchor_to_timestamp pref tzoff (searchStart tzoff nowWall)).off = some tzoff := by
  obtain ⟨h0, h24, m0, m60⟩ := resolveTime_bounds pref
  simp only [anchor_to_timestamp, searchStart, PyDT.replaceTime, PyDT.addDays,
    PyDT.addMicros, PyDT.date, usPerDay_eq, usPerHour_eq, usPerMin_eq]
  exact ⟨by omega, trivial⟩

/-- Branch equations of the slot finder, definitional. -/
theorem find_next_noSupabase (taskRes : Except Unit (List TaskRow))
    (pref : String) (est tzoff nowWall : Int) :
    find_next_available_slot false taskRes pref est tzoff nowWall =
      { scheduled_at := (PyDT.mk nowWall (some tzoff)).addDays 1,
        scheduled_text := pref } := rfl

theorem find_next_fetchError (pref : String) (est tzoff nowWall : Int) :
    find_next_available_slot true (.error ()) pref est tzoff nowWall =
      { scheduled_at := (PyDT.mk nowWall (some tzoff)).addDays 1,
        scheduled_text := pref } := rfl

theorem find_next_eq_match (tasks : List TaskRow) (pref : String)
    (est tzoff nowWall : Int) :
    find_next_available_slot true (.ok tasks) pref est tzoff nowWall =
      match tryCandidates tasks est tzoff (searchStart tzoff nowWall)
          (candidateList (timeSlotsFor pref)) with
      | .ok (some slot) => slot
      | .ok none =>
        { scheduled_at :=
            anchor_to_timestamp pref tzoff (searchStart tzoff nowWall),
          scheduled_text := pref }
      | .error _ =>
        { scheduled_at := (PyDT.mk nowWall (some tzoff)).addDays 1,
          scheduled_text := pref } := rfl

theorem tomorrow_wall (tzoff nowWall : Int) :
    nowWall < ((PyDT.mk nowWall (some tzoff)).addDays 1).wall ∧
    ((PyDT.mk nowWall (some tzoff)).addDays 1).off = some tzoff := by
  refine ⟨?_, rfl⟩
  show nowWall < nowWall + 1 * usPerDay
  simp only [usPerDay_eq]
  omega

/-- Whatever branch is taken, the slot finder returns a timestamp
strictly after `now` in the user's timezone. -/
theorem slot_future (supabaseOK : Bool) (taskRes : Except Unit (List TaskRow))
    (pref : String) (est tzoff nowWall : Int) :
    nowWall <
      (find_next_available_slot supabaseOK taskRes pref est tzoff nowWall).scheduled_at.wall ∧
    (find_next_available_slot supabaseOK taskRes pref est tzoff nowWall).scheduled_at.off =
      some tzoff := by
  cases supabaseOK with
  | false => rw [find_next_noSupabase]; exact tomorrow_wall tzoff nowWall
  | true =>
    cases taskRes with
    | error e => rw [find_next_fetchError]; exact tomorrow_wall tzoff nowWall
    | ok tasks =>
      rw [find_next_eq_match]
      cases htry : tryCandidates tasks est tzoff (searchStart tzoff nowWall)
          (candidateList (timeSlotsFor pref)) with
      | error e => exact tomorrow_wall tzoff nowWall
      | ok o =>
        cases o with
        | none => exact fallback_wall tzoff nowWall pref
        | some slot =>
          obtain ⟨c, _, hc⟩ := tryCandidates_mem tasks est tzoff
            (searchStart tzoff nowWall) _ slot htry
          rw [hc]
          exact slotTimeFor_wall tzoff nowWall c

/-- Every row of `state` carrying the given id has been (re)written to an
aware, strictly future schedule. -/
def FutureRows (tzoff nowWall : Int) (tid : Nat) (state : List TaskRow) : Prop :=
  ∀ t ∈ state, t.id = tid → ∃ x, t.scheduled_at = some (some x) ∧
    x.off = some tzoff ∧ nowWall < x.wall

theorem reschedule_false_state (supabaseOK : Bool) (state : List TaskRow)
    (tid : Nat) (tzoff nowWall : Int)
    (h : (reschedule_task supabaseOK state tid tzoff nowWall).1 = false) :
    (reschedule_task supabaseOK state tid tzoff nowWall).2 = state := by
  cases supabaseOK with
  | false => rfl
  | true =>
    rw [reschedule_task.eq_def] at h ⊢
    cases hf : state.find? (fun t => t.id == tid) with
    | none => simp [hf]
    | some task => rw [hf] at h; simp at h

theorem reschedule_success_future (supabaseOK : Bool) (state : List TaskRow)
    (tid : Nat) (tzoff nowWall : Int)
    (h : (reschedule_task supabaseOK state tid tzoff nowWall).1 = true) :
    FutureRows tzoff nowWall tid
      (reschedule_task supabaseOK state tid tzoff nowWall).2 := by
  cases supabaseOK with
  | false => exact absurd h (by simp [reschedule_task])
  | true =>
    rw [reschedule_task.eq_def]
    cases hf : state.find? (fun t => t.id == tid) with
    | none =>
      rw [reschedule_task.eq_def, hf] at h
      simp at h
    | some task =>
      simp only [Bool.not_true, Bool.false_eq_true, if_false]
      intro t2 ht2 hid2
      have ht2' : t2 ∈ state.map (fun t =>
          if (t.id == tid) = true then
            { t with
              scheduled_at := some (some (find_next_available_slot true
                (.ok state) (task.assigned_anchor.getD "After Lunch")
                (task.estimated_minutes.getD 15) tzoff nowWall).scheduled_at),
              scheduled_text := some (find_next_available_slot true
                (.ok state) (task.assigned_anchor.getD "After Lunch")
                (task.estimated_minutes.getD 15) tzoff nowWall).scheduled_text,
              was_rescheduled := true }
          else t) := ht2
      obtain ⟨t, ht, heq⟩ := List.mem_map.mp ht2'
      by_cases hb : (t.id == tid) = true
      · rw [if_pos hb] at heq
        refine ⟨(find_next_available_slot true (.ok state)
            (task.assigned_anchor.getD "After Lunch")
            (task.estimated_minutes.getD 15) tzoff nowWall).scheduled_at,
          ?_, ?_, ?_⟩
        · rw [← heq]
        · exact (slot_future true (.ok state) _ _ tzoff nowWall).2
        · exact (slot_future true (.ok state) _ _ tzoff nowWall).1
      · rw [if_neg hb] at heq
        rw [← heq] at hid2
        exact absurd (by simp [hid2] : (t.id == tid) = true) hb

theorem reschedule_other (supabaseOK : Bool) (state : List TaskRow)
    (tid tid2 : Nat) (tzoff nowWall : Int) (hne : tid2 ≠ tid)
    (h : FutureRows tzoff nowWall tid2 state) :
    FutureRows tzoff nowWall tid2
      (reschedule_task supabaseOK state tid tzoff nowWall).2 := by
  cases supabaseOK with
  | false => exact h
  | true =>
    rw [reschedule_task.eq_def]
    cases hf : state.find? (fun t => t.id == tid) with
    | none => exact h
    | some task =>
      simp only [Bool.not_true, Bool.false_eq_true, if_false]
      intro t2 ht2 hid2
      have ht2' : t2 ∈ state.map (fun t =>
          if (t.id == tid) = true then
            { t with
              scheduled_at := some (some (find_next_available_slot true
                (.ok state) (task.assigned_anchor.getD "After Lunch")
                (task.estimated_minutes.getD 15) tzoff nowWall).scheduled_at),
              scheduled_text := some (find_next_available_slot true
                (.ok state) (task.assigned_anchor.getD "After Lunch")
                (task.estimated_minutes.getD 15) tzoff nowWall).scheduled_text,
              was_rescheduled := true }
          else t) := ht2
      obtain ⟨t, ht, heq⟩ := List.mem_map.mp ht2'
      by_cases hb : (t.id == tid) = true
      · rw [if_pos hb] at heq
        rw [← heq] at hid2
        have hti : t.id = tid := by simpa using hb
        simp only [TaskRow.id] at hid2
        exact absurd (hid2 ▸ hti ▸ rfl : tid2 = tid) hne
      · rw [if_neg hb] at heq
        rw [← heq] at hid2 ⊢
        exact h t ht hid2

/-- One-step reduction equations for the sweep loop. -/
theorem detectLoop_step_completed (supabaseOK : Bool) (tzoff nowWall : Int)
    (task : TaskRow) (rest state : List TaskRow) (acc : List Nat)
    (hst : (task.status == "completed") = true) :
    detectLoop supabaseOK tzoff nowWall (task :: rest) state acc =
      detectLoop supabaseOK tzoff nowWall rest state acc := by
  rw [detectLoop, if_pos hst]

theorem detectLoop_step_nosched (supabaseOK : Bool) (tzoff nowWall : Int)
    (task : TaskRow) (rest state : List TaskRow) (acc : List Nat)
    (hst : ¬(task.status == "completed") = true)
    (hsch : task.scheduled_at = none) :
    detectLoop supabaseOK tzoff nowWall (task :: rest) state acc =
      detectLoop supabaseOK tzoff nowWall rest state acc := by
  rw [detectLoop, if_neg hst]
  simp only [hsch]

theorem detectLoop_step_badparse (supabaseOK : Bool) (tzoff nowWall : Int)
    (task : TaskRow) (rest state : List TaskRow) (acc : List Nat)
    (hst : ¬(task.status == "completed") = true)
    (hsch : task.scheduled_at = some none) :
    detectLoop supabaseOK tzoff nowWall (task :: rest) state acc =
      ([], state) := by
  rw [detectLoop, if_neg hst]
  simp only [hsch]

theorem detectLoop_step_naive (supabaseOK : Bool) (tzoff nowWall : Int)
    (task : TaskRow) (rest state : List TaskRow) (acc : List Nat)
    (task_time : PyDT) (hst : ¬(task.status == "completed") = true)
    (hsch : task.scheduled_at = some (some task_time))
    (hoff : task_time.off = none) :
    detectLoop supabaseOK tzoff nowWall (task :: rest) state acc =
      ([], state) := by
  rw [detectLoop, if_neg hst]
  simp only [hsch, hoff]

theorem detectLoop_step_overdue (supabaseOK : Bool) (tzoff nowWall : Int)
    (task : TaskRow) (rest state : List TaskRow) (acc : List Nat)
    (task_time : PyDT) (z : Int) (hst : ¬(task.status == "completed") = true)
    (hsch : task.scheduled_at = some (some task_time))
    (hoff : task_time.off = some z)
    (hovd : task_time.instant <
      ((PyDT.mk nowWall (some tzoff)).addMinutes (-60)).instant) :
    detectLoop supabaseOK tzoff nowWall (task :: rest) state acc =
      detectLoop supabaseOK tzoff nowWall rest
        (reschedule_task supabaseOK state task.id tzoff nowWall).2
        (if (reschedule_task supabaseOK state task.id tzoff nowWall).1
         then acc ++ [task.id] else acc) := by
  rw [detectLoop, if_neg hst]
  simp only [hsch, hoff]
  rw [if_pos hovd]

theorem detectLoop_step_notdue (supabaseOK : Bool) (tzoff nowWall : Int)
    (task : TaskRow) (rest state : List TaskRow) (acc : List Nat)
    (task_time : PyDT) (z : Int) (hst : ¬(task.status == "completed") = true)
    (hsch : task.scheduled_at = some (some task_time))
    (hoff : task_time.off = some z)
    (hovd : ¬task_time.instant <
      ((PyDT.mk nowWall (some tzoff)).addMinutes (-60)).instant) :
    detectLoop supabaseOK tzoff nowWall (task :: rest) state acc =
      detectLoop supabaseOK tzoff nowWall rest state acc := by
  rw [detectLoop, if_neg hst]
  simp only [hsch, hoff]
  rw [if_neg hovd]

/-- (A) Every id reported by the sweep loop points only at rows rewritten
to a strictly future, timezone-aware schedule in the final store. -/
theorem detectLoop_future (supabaseOK : Bool) (tzoff nowWall : Int) :
    ∀ (snap state : List TaskRow) (acc : List Nat),
      (snap.map TaskRow.id).Nodup →
      (∀ t ∈ snap, t.id ∉ acc) →
      (∀ tid ∈ acc, FutureRows tzoff nowWall tid state) →
      ∀ tid ∈ (detectLoop supabaseOK tzoff nowWall snap state acc).1,
        FutureRows tzoff nowWall tid
          (detectLoop supabaseOK tzoff nowWall snap state acc).2 := by
  intro snap
  induction snap with
  | nil => intro state acc _ _ hacc tid htid; exact hacc tid htid
  | cons task rest ih =>
    intro state acc hnd hdj hacc
    have hnd2 : (task.id :: rest.map TaskRow.id).Nodup := by simpa using hnd
    have hndr : (rest.map TaskRow.id).Nodup := (List.nodup_cons.mp hnd2).2
    have hhd : task.id ∉ rest.map TaskRow.id := (List.nodup_cons.mp hnd2).1
    have hdr : ∀ t ∈ rest, t.id ∉ acc :=
      fun t ht => hdj t (List.mem_cons_of_mem _ ht)
    by_cases hst : (task.status == "completed") = true
    · rw [detectLoop_step_completed supabaseOK tzoff nowWall task rest state acc hst]
      exact ih state acc hndr hdr hacc
    · cases hsch : task.scheduled_at with
      | none =>
        rw [detectLoop_step_nosched supabaseOK tzoff nowWall task rest state acc hst hsch]
        exact ih state acc hndr hdr hacc
      | some o =>
        cases o with
        | none =>
          rw [detectLoop_step_badparse supabaseOK tzoff nowWall task rest state acc hst hsch]
          intro tid htid
          simp at htid
        | some task_time =>
          cases hoff : task_time.off with
          | none =>
            rw [detectLoop_step_naive supabaseOK tzoff nowWall task rest state acc
              task_time hst hsch hoff]
            intro tid htid
            simp at htid
          | some z =>
            by_cases hovd : task_time.instant <
                ((PyDT.mk nowWall (some tzoff)).addMinutes (-60)).instant
            · rw [detectLoop_step_overdue supabaseOK tzoff nowWall task rest state acc
                task_time z hst hsch hoff hovd]
              cases hrs : (reschedule_task supabaseOK state task.id tzoff nowWall).1 with
              | false =>
                simp only [hrs, Bool.false_eq_true, if_false]
                rw [reschedule_false_state supabaseOK state task.id tzoff nowWall hrs]
                exact ih state acc hndr hdr hacc
              | true =>
                simp only [hrs, if_true]
                refine ih _ (acc ++ [task.id]) hndr ?_ ?_
                · intro t ht
                  rw [List.mem_append]
                  rintro (hin | hin)
                  · exact hdr t ht hin
                  · have hte : t.id = task.id := by simpa using hin
                    exact absurd (hte ▸ List.mem_map_of_mem TaskRow.id ht) hhd
                · intro tid htid
                  rcases List.mem_append.mp htid with hin | hin
                  · have hne : tid ≠ task.id := by
                      intro he
                      exact hdj task (List.mem_cons_self task rest) (he ▸ hin)
                    exact reschedule_other supabaseOK state task.id tid
                      tzoff nowWall hne (hacc tid hin)
                  · have hte : tid = task.id := by simpa using hin
                    rw [hte]
                    exact reschedule_success_future supabaseOK state task.id
                      tzoff nowWall hrs
            · rw [detectLoop_step_notdue supabaseOK tzoff nowWall task rest state acc
                task_time z hst hsch hoff hovd]
              exact ih state acc hndr hdr hacc

/-- (B) Every id newly reported by the sweep loop belongs to a snapshot
row that passed the overdue filter: status not "completed", parseable
aware schedule more than one hour in the past. -/
theorem detectLoop_overdue (supabaseOK : Bool) (tzoff nowWall : Int) :
    ∀ (snap state : List TaskRow) (acc : List Nat),
      ∀ tid ∈ (detectLoop supabaseOK tzoff nowWall snap state acc).1,
        tid ∈ acc ∨ ∃ t ∈ snap, t.id = tid ∧
          (t.status == "completed") = false ∧
          ∃ x, t.scheduled_at = some (some x) ∧ x.off.isSome = true ∧
            x.instant < ((PyDT.mk nowWall (some tzoff)).addMinutes (-60)).instant := by
  intro snap
  induction snap with
  | nil => intro state acc tid htid; exact Or.inl htid
  | cons task rest ih =>
    intro state acc tid htid
    by_cases hst : (task.status == "completed") = true
    · rw [detectLoop_step_completed supabaseOK tzoff nowWall task rest state acc hst] at htid
      rcases ih state acc tid htid with h | ⟨t, ht, hrest⟩
      · exact Or.inl h
      · exact Or.inr ⟨t, List.mem_cons_of_mem _ ht, hrest⟩
    · cases hsch : task.scheduled_at with
      | none =>
        rw [detectLoop_step_nosched supabaseOK tzoff nowWall task rest state acc hst hsch] at htid
        rcases ih state acc tid htid with h | ⟨t, ht, hrest⟩
        · exact Or.inl h
        · exact Or.inr ⟨t, List.mem_cons_of_mem _ ht, hrest⟩
      | some o =>
        cases o with
        | none =>
          rw [detectLoop_step_badparse supabaseOK tzoff nowWall task rest state acc hst hsch] at htid
          simp at htid
        | some task_time =>
          cases hoff : task_time.off with
          | none =>
            rw [detectLoop_step_naive supabaseOK tzoff nowWall task rest state acc
              task_time hst hsch hoff] at htid
            simp at htid
          | some z =>
            by_cases hovd : task_time.instant <
                ((PyDT.mk nowWall (some tzoff)).addMinutes (-60)).instant
            · rw [detectLoop_step_overdue supabaseOK tzoff nowWall task rest state acc
                task_time z hst hsch hoff hovd] at htid
              rcases ih _ _ tid htid with h | ⟨t, ht, hrest⟩
              · by_cases hin : tid ∈ acc
                · exact Or.inl hin
                · have htask : tid = task.id := by
                    cases hrs : (reschedule_task supabaseOK state task.id tzoff nowWall).1 with
                    | false => rw [hrs] at h; simp at h; exact absurd h hin
                    | true =>
                      rw [hrs] at h
                      simp at h
                      rcases h with h | h
                      · exact absurd h hin
                      · exact h
                  refine Or.inr ⟨task, List.mem_cons_self task rest, htask.symm, ?_,
                    task_time, hsch, by simp [hoff], hovd⟩
                  simpa using hst
              · exact Or.inr ⟨t, List.mem_cons_of_mem _ ht, hrest⟩
            · rw [detectLoop_step_notdue supabaseOK tzoff nowWall task rest state acc
                task_time z hst hsch hoff hovd] at htid
              rcases ih state acc tid htid with h | ⟨t, ht, hrest⟩
              · exact Or.inl h
              · exact Or.inr ⟨t, List.mem_cons_of_mem _ ht, hrest⟩

theorem availabilityAt_eq (calRes : Except Unit (List Busy))
    (supabaseOK : Bool) (taskRes : Except Unit (List TaskRow))
    (anchors : List String) {days_ahead : Nat} (dur tzoff nowWall : Int)
    {day_offset : Nat} (h : day_offset < days_ahead) :
    availabilityAt calRes supabaseOK taskRes anchors days_ahead dur tzoff
        nowWall day_offset =
      dayAvailability (allBusy calRes supabaseOK taskRes) anchors dur tzoff
        ((PyDT.mk nowWall (some tzoff)).date + day_offset) := by
  simp only [availabilityAt, get_available_anchors]
  rw [getD_range_map _ _ h]

/-- Membership in one day's availability list, unfolded to the per-busy
overlap condition of the source. -/
theorem mem_dayAvailability (all_busy : List Busy) (anchors : List String)
    (dur tzoff current : Int) (anchor : String) (ha : anchor ∈ anchors) :
    (anchor ∈ dayAvailability all_busy anchors dur tzoff current ↔
      ∀ b ∈ all_busy, b.start.date = current →
        ¬((anchor_to_timestamp anchor tzoff
              ⟨current * usPerDay, some tzoff⟩).instant <
            (normTZ tzoff b.stop).instant ∧
          (normTZ tzoff b.start).instant <
            ((anchor_to_timestamp anchor tzoff
                ⟨current * usPerDay, some tzoff⟩).addMinutes dur).instant)) := by
  simp only [dayAvailability, anchorBlocked, List.mem_filter, ha, true_and,
    Bool.not_eq_true', List.any_eq_false, List.mem_filter, beq_iff_eq, and_imp]
  constructor
  · intro h b hb hbd
    have h2 := h b hb hbd
    simp only [Bool.and_eq_true, decide_eq_true_eq, gt_iff_lt, not_and] at h2
    simp only [not_and]
    exact h2
  · intro h b hb hbd
    have h2 := h b hb hbd
    simp only [not_and] at h2
    simp only [Bool.and_eq_true, decide_eq_true_eq, gt_iff_lt, not_and]
    exact h2

theorem fetchedTasks_error (supabaseOK : Bool) :
    fetchedTasks supabaseOK (.error ()) = [] := by
  cases supabaseOK <;> rfl

theorem fetchedTasks_nil (supabaseOK : Bool) :
    fetchedTasks supabaseOK (.ok []) = [] := by
  cases supabaseOK <;> rfl

theorem dayAvailability_nil (anchors : List String) (dur tzoff current : Int) :
    dayAvailability [] anchors dur tzoff current = anchors := by
  simp [dayAvailability, anchorBlocked]

theorem dayAvailability_cons_other (b : Busy) (rest : List Busy)
    (anchors : List String) (dur tzoff current : Int)
    (h : b.start.date ≠ current) :
    dayAvailability (b :: rest) anchors dur tzoff current =
      dayAvailability rest anchors dur tzoff current := by
  have hbd : (b.start.date == current) = false := by simpa using h
  simp only [dayAvailability, List.filter_cons, hbd, Bool.false_eq_true,
    if_false]

theorem dayAvailability_single_full (b : Busy) (anchors : List String)
    (dur tzoff current : Int) (hd : b.start.date = current)
    (hov : ∀ anchor ∈ anchors,
      (anchor_to_timestamp anchor tzoff
          ⟨current * usPerDay, some tzoff⟩).instant <
        (normTZ tzoff b.stop).instant ∧
      (normTZ tzoff b.start).instant <
        ((anchor_to_timestamp anchor tzoff
            ⟨current * usPerDay, some tzoff⟩).addMinutes dur).instant) :
    dayAvailability [b] anchors dur tzoff current = [] := by
  have hbd : (b.start.date == current) = true := by simpa using hd
  simp only [dayAvailability, List.filter_cons, hbd, if_true, List.filter_nil]
  rw [List.filter_eq_nil_iff]
  intro a ha
  simp [anchorBlocked, (hov a ha).1, (hov a ha).2]

/-! ### Claim theorems -/

/-- Claim C2: `anchor_to_timestamp` scans the registry keys in their
declared order and uses the hour/minute of the first key that is,
case-insensitively, a substring of the anchor name; for a name matching
no key it uses hour 14, minute 0; "Morning Coffee" resolves to 08:00 on
any base date and an unrecognized string to 14:00.  The operation is a
total function (never fails). -/
theorem C2_resolver_first_match :
    (∀ (anchor : String) (tzoff : Int) (base : PyDT) (i : Nat)
       (hi : i < ANCHOR_TIME_MAP.length),
       keyMatches anchor (ANCHOR_TIME_MAP.get ⟨i, hi⟩).1 = true →
       (∀ j (hj : j < i),
         keyMatches anchor (ANCHOR_TIME_MAP.get ⟨j, Nat.lt_trans hj hi⟩).1 = false) →
       anchor_to_timestamp anchor tzoff base =
         base.replaceTime (ANCHOR_TIME_MAP.get ⟨i, hi⟩).2.hour
           (ANCHOR_TIME_MAP.get ⟨i, hi⟩).2.minute) ∧
    (∀ (anchor : String) (tzoff : Int) (base : PyDT),
       (∀ p ∈ ANCHOR_TIME_MAP, keyMatches anchor p.1 = false) →
       anchor_to_timestamp anchor tzoff base = base.replaceTime 14 0) ∧
    (∀ (tzoff : Int) (base : PyDT),
       anchor_to_timestamp "Morning Coffee" tzoff base = base.replaceTime 8 0) ∧
    (∀ (tzoff : Int) (base : PyDT),
       anchor_to_timestamp "Random Nonsense" tzoff base =
         base.replaceTime 14 0) := by
  refine ⟨?_, ?_, ?_, ?_⟩
  · intro anchor tzoff base i hi hm hprev
    have hfind := find_first (fun p => keyMatches anchor p.1) ANCHOR_TIME_MAP
      i hi hm hprev
    unfold anchor_to_timestamp resolveTime findTimeConfig
    rw [hfind]
    rfl
  · intro anchor tzoff base hnone
    have hfind : ANCHOR_TIME_MAP.find? (fun p => keyMatches anchor p.1) = none :=
      List.find?_eq_none.mpr (fun p hp => by simp [hnone p hp])
    unfold anchor_to_timestamp resolveTime findTimeConfig
    rw [hfind]
    rfl
  · intro tzoff base
    have h8 : resolveTime "Morning Coffee" = ⟨8, 0⟩ := by decide
    simp [anchor_to_timestamp, h8]
  · intro tzoff base
    have h14 : resolveTime "Random Nonsense" = ⟨14, 0⟩ := by decide
    simp [anchor_to_timestamp, h14]

/-- Witness for C2 at concrete inputs: "After Lunch" matches registry
index 6 first (13:30), "qwerty xyz" matches nothing (14:00). -/
theorem C2_resolver_first_match_witness :
    anchor_to_timestamp "After Lunch" 0 ⟨0, some 0⟩ =
      (PyDT.mk 0 (some 0)).replaceTime 13 30 ∧
    anchor_to_timestamp "qwerty xyz" 0 ⟨0, some 0⟩ =
      (PyDT.mk 0 (some 0)).replaceTime 14 0 := by
  have h1 := C2_resolver_first_match.1 "After Lunch" 0 ⟨0, some 0⟩ 6
    (by decide) (by decide) (by decide)
  have h2 := C2_resolver_first_match.2.1 "qwerty xyz" 0 ⟨0, some 0⟩ (by decide)
  exact ⟨h1.trans (by decide), h2⟩

/-- Claim C10: because lookup takes the first case-insensitive substring
match in declared order, the "Mid-Morning" and "Mid-Afternoon" entries
are shadowed by the earlier "Morning" and "Afternoon" keys: resolving
"Mid-Morning" yields 08:00 (not its own 10:30 entry) and "Mid-Afternoon"
yields 14:00 (not 15:30); hence both morning candidates of the slot
finder resolve to the same timestamp on any day. -/
theorem C10_shadowed_registry_entries :
    resolveTime "Mid-Morning" = ⟨8, 0⟩ ∧
    resolveTime "Mid-Afternoon" = ⟨14, 0⟩ ∧
    ("Mid-Morning", (⟨10, 30⟩ : TimeConfig)) ∈ ANCHOR_TIME_MAP ∧
    ("Mid-Afternoon", (⟨15, 30⟩ : TimeConfig)) ∈ ANCHOR_TIME_MAP ∧
    (⟨10, 30⟩ : TimeConfig) ≠ ⟨8, 0⟩ ∧
    (⟨15, 30⟩ : TimeConfig) ≠ ⟨14, 0⟩ ∧
    timeSlotsFor "morning" = ["Morning Coffee", "Mid-Morning"] ∧
    ∀ (tzoff : Int) (base : PyDT),
      anchor_to_timestamp "Morning Coffee" tzoff base =
        anchor_to_timestamp "Mid-Morning" tzoff base := by
  refine ⟨by decide, by decide, by decide, by decide, by decide, by decide,
    by decide, ?_⟩
  intro tzoff base
  have h1 : resolveTime "Morning Coffee" = ⟨8, 0⟩ := by decide
  have h2 : resolveTime "Mid-Morning" = ⟨8, 0⟩ := by decide
  simp [anchor_to_timestamp, h1, h2]

/-- Claim C3 counterexample: for the explicitly supplied base date
`⟨0, some 0⟩` (epoch midnight, UTC tzinfo) and timezone argument
-480 minutes (America/Los_Angeles), the returned timestamp keeps the
base date's UTC offset 0 rather than the given timezone's -480: the
`timezone` parameter is ignored whenever `base_date` is supplied. -/
theorem C3_counterexample :
    (anchor_to_timestamp "Morning Coffee" (-480) ⟨0, some 0⟩).off = some 0 ∧
    some (0 : Int) ≠ some (-480 : Int) := by decide

/-- Claim C3 amended: the result equals the base date with its time of
day replaced by the resolved hour and minute, seconds and microseconds
zeroed, expressed in the base date's own timezone (`tzinfo` preserved);
this coincides with the given timezone only when the base date already
carries it. -/
theorem C3_replace_semantics (anchor : String) (timezone : Int) (base : PyDT) :
    (anchor_to_timestamp anchor timezone base).date = base.date ∧
    (anchor_to_timestamp anchor timezone base).hour = (resolveTime anchor).hour ∧
    (anchor_to_timestamp anchor timezone base).minute = (resolveTime anchor).minute ∧
    (anchor_to_timestamp anchor timezone base).second = 0 ∧
    (anchor_to_timestamp anchor timezone base).microsecond = 0 ∧
    (anchor_to_timestamp anchor timezone base).off = base.off := by
  obtain ⟨h0, h24, m0, m60⟩ := resolveTime_bounds anchor
  exact replaceTime_spec base _ _ h0 h24 m0 m60

/-- Claim C1: in `get_available_anchors`, for every requested anchor on
every day in the horizon, with anchor window `[a, a+d)` and each same-day
busy interval `[b, e)` (naive bounds made aware in the user timezone),
the anchor is available iff no such interval has `a < e ∧ a + d > b`;
in particular intervals touching the window only at its endpoints
(busy ending exactly at `a`, or starting exactly at `a+d`) never block:
back-to-back scheduling is permitted. -/
theorem C1_overlap_boundary (calRes : Except Unit (List Busy))
    (supabaseOK : Bool) (taskRes : Except Unit (List TaskRow))
    (anchors : List String) (days_ahead : Nat) (dur tzoff nowWall : Int)
    (day_offset : Nat) (h : day_offset < days_ahead) (anchor : String)
    (ha : anchor ∈ anchors) :
    (anchor ∈ availabilityAt calRes supabaseOK taskRes anchors days_ahead dur
        tzoff nowWall day_offset ↔
      ∀ b ∈ allBusy calRes supabaseOK taskRes,
        b.start.date = (PyDT.mk nowWall (some tzoff)).date + day_offset →
        ¬((anchor_to_timestamp anchor tzoff
              ⟨((PyDT.mk nowWall (some tzoff)).date + day_offset) * usPerDay,
                some tzoff⟩).instant < (normTZ tzoff b.stop).instant ∧
          (normTZ tzoff b.start).instant <
            ((anchor_to_timestamp anchor tzoff
                ⟨((PyDT.mk nowWall (some tzoff)).date + day_offset) * usPerDay,
                  some tzoff⟩).addMinutes dur).instant)) ∧
    ((∀ b ∈ allBusy calRes supabaseOK taskRes,
        b.start.date = (PyDT.mk nowWall (some tzoff)).date + day_offset →
        (normTZ tzoff b.stop).instant ≤
            (anchor_to_timestamp anchor tzoff
              ⟨((PyDT.mk nowWall (some tzoff)).date + day_offset) * usPerDay,
                some tzoff⟩).instant ∨
          ((anchor_to_timestamp anchor tzoff
              ⟨((PyDT.mk nowWall (some tzoff)).date + day_offset) * usPerDay,
                some tzoff⟩).addMinutes dur).instant ≤
            (normTZ tzoff b.start).instant) →
      anchor ∈ availabilityAt calRes supabaseOK taskRes anchors days_ahead dur
        tzoff nowWall day_offset) := by
  have hval := availabilityAt_eq calRes supabaseOK taskRes anchors dur tzoff
    nowWall h
  have hmem := mem_dayAvailability (allBusy calRes supabaseOK taskRes) anchors
    dur tzoff ((PyDT.mk nowWall (some tzoff)).date + day_offset) anchor ha
  constructor
  · rw [hval]
    exact hmem
  · intro hno
    rw [hval, hmem]
    intro b hb hbd
    rcases hno b hb hbd with hle | hle
    · intro hc
      omega
    · intro hc
      omega

/-- Witness for C1: no busy intervals at all, one anchor, one day. -/
theorem C1_overlap_boundary_witness :
    ("Morning Coffee" ∈ availabilityAt (.ok []) false (.ok [])
        ["Morning Coffee"] 1 20 0 0 0 ↔
      ∀ b ∈ allBusy (.ok []) false (.ok []),
        b.start.date = (PyDT.mk 0 (some 0)).date + (0 : Nat) →
        ¬((anchor_to_timestamp "Morning Coffee" 0
              ⟨((PyDT.mk 0 (some 0)).date + (0 : Nat)) * usPerDay,
                some 0⟩).instant < (normTZ 0 b.stop).instant ∧
          (normTZ 0 b.start).instant <
            ((anchor_to_timestamp "Morning Coffee" 0
                ⟨((PyDT.mk 0 (some 0)).date + (0 : Nat)) * usPerDay,
                  some 0⟩).addMinutes 20).instant)) ∧
    ((∀ b ∈ allBusy (.ok []) false (.ok []),
        b.start.date = (PyDT.mk 0 (some 0)).date + (0 : Nat) →
        (normTZ 0 b.stop).instant ≤
            (anchor_to_timestamp "Morning Coffee" 0
              ⟨((PyDT.mk 0 (some 0)).date + (0 : Nat)) * usPerDay,
                some 0⟩).instant ∨
          ((anchor_to_timestamp "Morning Coffee" 0
              ⟨((PyDT.mk 0 (some 0)).date + (0 : Nat)) * usPerDay,
                some 0⟩).addMinutes 20).instant ≤
            (normTZ 0 b.start).instant) →
      "Morning Coffee" ∈ availabilityAt (.ok []) false (.ok [])
        ["Morning Coffee"] 1 20 0 0 0) :=
  C1_overlap_boundary (.ok []) false (.ok []) ["Morning Coffee"] 1 20 0 0 0
    (by decide) "Morning Coffee" (by decide)

theorem fetchedTasks_noSupabase (taskRes : Except Unit (List TaskRow)) :
    fetchedTasks false taskRes = [] := rfl

/-- Claim C6: `get_available_anchors` is total (the model is a function);
a raised calendar fetch is equivalent to an empty calendar, and when the
task source also fails, is absent, or is empty, every requested anchor is
returned available for every day in range. -/
theorem C6_graceful_degradation (supabaseOK : Bool)
    (taskRes : Except Unit (List TaskRow)) (anchors : List String)
    (days_ahead : Nat) (dur tzoff nowWall : Int) :
    get_available_anchors (.error ()) supabaseOK taskRes anchors days_ahead
        dur tzoff nowWall =
      get_available_anchors (.ok []) supabaseOK taskRes anchors days_ahead
        dur tzoff nowWall ∧
    get_available_anchors (.error ()) supabaseOK (.error ()) anchors
        days_ahead dur tzoff nowWall =
      (List.range days_ahead).map (fun (day_offset : Nat) =>
        ((PyDT.mk nowWall (some tzoff)).date + (day_offset : Int), anchors)) ∧
    get_available_anchors (.error ()) supabaseOK (.ok []) anchors days_ahead
        dur tzoff nowWall =
      (List.range days_ahead).map (fun (day_offset : Nat) =>
        ((PyDT.mk nowWall (some tzoff)).date + (day_offset : Int), anchors)) ∧
    get_available_anchors (.error ()) false taskRes anchors days_ahead dur
        tzoff nowWall =
      (List.range days_ahead).map (fun (day_offset : Nat) =>
        ((PyDT.mk nowWall (some tzoff)).date + (day_offset : Int), anchors)) := by
  have hb1 : allBusy (.error ()) supabaseOK (.error ()) = [] := by
    rw [allBusy, fetchedTasks_error]; rfl
  have hb2 : allBusy (.error ()) supabaseOK (.ok []) = [] := by
    rw [allBusy, fetchedTasks_nil]; rfl
  have hb3 : allBusy (.error ()) false taskRes = [] := by
    rw [allBusy, fetchedTasks_noSupabase]; rfl
  refine ⟨rfl, ?_, ?_, ?_⟩ <;>
    simp [get_available_anchors, hb1, hb2, hb3, dayAvailability_nil]

/-- Claim C7: the busy intervals considered for a day are exactly those
whose start date equals that day.  A busy interval whose start date is
not the current day leaves that day's availability untouched, and a
single busy interval overlapping every anchor window of its start day
blocks every requested anchor on that day and none on any other day. -/
theorem C7_day_isolation (calRest : List Busy) (supabaseOK : Bool)
    (taskRes : Except Unit (List TaskRow)) (anchors : List String)
    (days_ahead : Nat) (dur tzoff nowWall : Int) (b : Busy)
    (day_offset : Nat) (h : day_offset < days_ahead) :
    (b.start.date ≠ (PyDT.mk nowWall (some tzoff)).date + day_offset →
      availabilityAt (.ok (b :: calRest)) supabaseOK taskRes anchors
          days_ahead dur tzoff nowWall day_offset =
        availabilityAt (.ok calRest) supabaseOK taskRes anchors days_ahead
          dur tzoff nowWall day_offset) ∧
    (b.start.date = (PyDT.mk nowWall (some tzoff)).date + day_offset →
      (∀ anchor ∈ anchors,
        (anchor_to_timestamp anchor tzoff
            ⟨((PyDT.mk nowWall (some tzoff)).date + day_offset) * usPerDay,
              some tzoff⟩).instant < (normTZ tzoff b.stop).instant ∧
        (normTZ tzoff b.start).instant <
          ((anchor_to_timestamp anchor tzoff
              ⟨((PyDT.mk nowWall (some tzoff)).date + day_offset) * usPerDay,
                some tzoff⟩).addMinutes dur).instant) →
      availabilityAt (.ok [b]) supabaseOK (.ok []) anchors days_ahead dur
          tzoff nowWall day_offset = [] ∧
      ∀ j : Nat, j < days_ahead → j ≠ day_offset →
        availabilityAt (.ok [b]) supabaseOK (.ok []) anchors days_ahead dur
          tzoff nowWall j = anchors) := by
  have hcons : allBusy (.ok (b :: calRest)) supabaseOK taskRes =
      b :: allBusy (.ok calRest) supabaseOK taskRes := rfl
  have hone : allBusy (.ok [b]) supabaseOK (.ok []) = [b] := by
    rw [allBusy, fetchedTasks_nil]; rfl
  constructor
  · intro hne
    rw [availabilityAt_eq _ _ _ _ _ _ _ h, availabilityAt_eq _ _ _ _ _ _ _ h,
      hcons, dayAvailability_cons_other _ _ _ _ _ _ hne]
  · intro hd hov
    constructor
    · rw [availabilityAt_eq _ _ _ _ _ _ _ h, hone]
      exact dayAvailability_single_full b anchors dur tzoff _ hd hov
    · intro j hj hne
      rw [availabilityAt_eq _ _ _ _ _ _ _ hj, hone]
      have hbd : b.start.date ≠ (PyDT.mk nowWall (some tzoff)).date + j := by
        rw [hd]
        intro hc
        have : (day_offset : Int) = (j : Int) := by omega
        exact hne (by exact_mod_cast this.symm)
      rw [dayAvailability_cons_other _ _ _ _ _ _ hbd, dayAvailability_nil]

/-- Witness for C7: a busy interval covering all of day 0 with two
anchors and a two-day horizon. -/
theorem C7_day_isolation_witness :
    ((Busy.mk ⟨0, some 0⟩ ⟨usPerDay, some 0⟩).start.date ≠
        (PyDT.mk 0 (some 0)).date + (0 : Nat) →
      availabilityAt (.ok [Busy.mk ⟨0, some 0⟩ ⟨usPerDay, some 0⟩, Busy.mk ⟨usPerDay, some 0⟩ ⟨usPerDay, some 0⟩])
          false (.ok []) ["Morning Coffee", "After Lunch"] 2 20 0 0 0 =
        availabilityAt (.ok [Busy.mk ⟨usPerDay, some 0⟩ ⟨usPerDay, some 0⟩])
          false (.ok []) ["Morning Coffee", "After Lunch"] 2 20 0 0 0) ∧
    ((Busy.mk ⟨0, some 0⟩ ⟨usPerDay, some 0⟩).start.date =
        (PyDT.mk 0 (some 0)).date + (0 : Nat) →
      (∀ anchor ∈ ["Morning Coffee", "After Lunch"],
        (anchor_to_timestamp anchor 0
            ⟨((PyDT.mk 0 (some 0)).date + (0 : Nat)) * usPerDay,
              some 0⟩).instant <
          (normTZ 0 (Busy.mk ⟨0, some 0⟩ ⟨usPerDay, some 0⟩).stop).instant ∧
        (normTZ 0 (Busy.mk ⟨0, some 0⟩ ⟨usPerDay, some 0⟩).start).instant <
          ((anchor_to_timestamp anchor 0
              ⟨((PyDT.mk 0 (some 0)).date + (0 : Nat)) * usPerDay,
                some 0⟩).addMinutes 20).instant) →
      availabilityAt (.ok [Busy.mk ⟨0, some 0⟩ ⟨usPerDay, some 0⟩]) false
          (.ok []) ["Morning Coffee", "After Lunch"] 2 20 0 0 0 = [] ∧
      ∀ j : Nat, j < 2 → j ≠ 0 →
        availabilityAt (.ok [Busy.mk ⟨0, some 0⟩ ⟨usPerDay, some 0⟩]) false
          (.ok []) ["Morning Coffee", "After Lunch"] 2 20 0 0 j =
          ["Morning Coffee", "After Lunch"]) :=
  C7_day_isolation [Busy.mk ⟨usPerDay, some 0⟩ ⟨usPerDay, some 0⟩] false
    (.ok []) ["Morning Coffee", "After Lunch"] 2 20 0 0
    (Busy.mk ⟨0, some 0⟩ ⟨usPerDay, some 0⟩) 0 (by decide)

theorem match_conflict_eq (t : TaskRow) (est : Int) (s : PyDT) :
    ((match t.scheduled_at with
      | some (some x) =>
        decide (|x.instant - s.instant| <
          (t.estimated_minutes.getD 15 + est) * usPerMin)
      | _ => false) = true) ↔
    ∃ x, t.scheduled_at = some (some x) ∧
      |x.instant - s.instant| < (t.estimated_minutes.getD 15 + est) * usPerMin := by
  cases hs : t.scheduled_at with
  | none => simp
  | some o =>
    cases o with
    | none => simp
    | some x => simp

/-- Claim C4 counterexample: with one existing task whose `scheduled_at`
is present but unparseable, no task has a parseable scheduled time, so
under the claim's conflict rule no candidate conflicts and the first
candidate ("Morning Coffee", tomorrow) should be returned; the code
instead raises inside the scan and returns the `{now + 1 day, original
preference}` exception fallback. -/
theorem C4_counterexample :
    (¬ ∃ t ∈ [TaskRow.mk 0 (some none) none "pending" none none false],
        ∃ x, t.scheduled_at = some (some x)) ∧
    (find_next_available_slot true
        (.ok [TaskRow.mk 0 (some none) none "pending" none none false])
        "morning" 15 0 0).scheduled_text = "morning" ∧
    "morning" ≠ "Morning Coffee" ∧
    (find_next_available_slot true
        (.ok [TaskRow.mk 0 (some none) none "pending" none none false])
        "morning" 15 0 0).scheduled_at ≠
      slotTimeFor 0 (searchStart 0 0) (0, "Morning Coffee") := by
  refine ⟨?_, by decide, by decide, by decide⟩
  rintro ⟨t, ht, x, hx⟩
  simp only [List.mem_singleton] at ht
  rw [ht] at hx
  simp at hx

/-- Claim C4 amended: provided every existing row's `scheduled_at`, when
present, parses to an aware datetime, a candidate slot `s` conflicts iff
some task has a parsed time `t` and duration `m` (default 15) with
`|t - s| < (m + estimatedMinutes) minutes` — a symmetric proximity
check, not the half-open overlap rule — and the function returns the
first candidate, in search order, with no such conflict (else the
fallback).  An unparseable or naive `scheduled_at` instead aborts the
scan into the exception fallback. -/
theorem C4_proximity_conflict (tasks : List TaskRow) (pref : String)
    (est tzoff nowWall : Int) (hwf : ∀ t ∈ tasks, wfRow t = true) :
    (∀ s : PyDT, hasConflictB tasks est s = true ↔
      ∃ t ∈ tasks, ∃ x, t.scheduled_at = some (some x) ∧
        |x.instant - s.instant| <
          (t.estimated_minutes.getD 15 + est) * usPerMin) ∧
    (find_next_available_slot true (.ok tasks) pref est tzoff nowWall =
      match (candidateList (timeSlotsFor pref)).find?
          (fun c => !hasConflictB tasks est
            (slotTimeFor tzoff (searchStart tzoff nowWall) c)) with
      | some c =>
        { scheduled_at := slotTimeFor tzoff (searchStart tzoff nowWall) c,
          scheduled_text := c.2 }
      | none =>
        { scheduled_at :=
            anchor_to_timestamp pref tzoff (searchStart tzoff nowWall),
          scheduled_text := pref }) := by
  constructor
  · intro s
    rw [hasConflictB, List.any_eq_true]
    constructor
    · rintro ⟨t, ht, hm⟩
      exact ⟨t, ht, (match_conflict_eq t est s).mp hm⟩
    · rintro ⟨t, ht, hm⟩
      exact ⟨t, ht, (match_conflict_eq t est s).mpr hm⟩
  · exact find_next_spec tasks pref est tzoff nowWall hwf

/-- Witness for C4: one well-formed task at tomorrow 08:00 with duration
15 blocks both morning candidates of day 0 (both resolve to 08:00); the
first free candidate is "Morning Coffee" on day 1. -/
theorem C4_proximity_conflict_witness :
    find_next_available_slot true
        (.ok [TaskRow.mk 1 (some (some ⟨usPerDay + 8 * usPerHour, some 0⟩))
          (some 15) "pending" none none false]) "morning" 15 0 0 =
      { scheduled_at := ⟨2 * usPerDay + 8 * usPerHour, some 0⟩,
        scheduled_text := "Morning Coffee" } := by
  have h := (C4_proximity_conflict
    [TaskRow.mk 1 (some (some ⟨usPerDay + 8 * usPerHour, some 0⟩))
      (some 15) "pending" none none false] "morning" 15 0 0 (by decide)).2
  rw [h]
  decide

/-- Claim C5: if every (day, anchor) candidate in the 7-day horizon is
conflicted, the finder still returns a result (the model is total) whose
label is the original `anchorPreference` text and whose timestamp is
that preference resolved on the search-start date — tomorrow at
midnight in the user timezone — with no conflict condition on this
fallback. -/
theorem C5_fallback_guarantee (tasks : List TaskRow) (pref : String)
    (est tzoff nowWall : Int) (hwf : ∀ t ∈ tasks, wfRow t = true)
    (hall : ∀ c ∈ candidateList (timeSlotsFor pref),
      hasConflictB tasks est
        (slotTimeFor tzoff (searchStart tzoff nowWall) c) = true) :
    find_next_available_slot true (.ok tasks) pref est tzoff nowWall =
      { scheduled_at :=
          anchor_to_timestamp pref tzoff (searchStart tzoff nowWall),
        scheduled_text := pref } ∧
    searchStart tzoff nowWall =
      ((PyDT.mk nowWall (some tzoff)).addDays 1).replaceTime 0 0 ∧
    (searchStart tzoff nowWall).hour = 0 ∧
    (searchStart tzoff nowWall).minute = 0 ∧
    (searchStart tzoff nowWall).off = some tzoff := by
  refine ⟨?_, rfl, ?_, ?_, rfl⟩
  · rw [find_next_spec tasks pref est tzoff nowWall hwf]
    have hnone : (candidateList (timeSlotsFor pref)).find?
        (fun c => !hasConflictB tasks est
          (slotTimeFor tzoff (searchStart tzoff nowWall) c)) = none :=
      List.find?_eq_none.mpr (fun c hc => by simp [hall c hc])
    rw [hnone]
  · exact (replaceTime_spec ((PyDT.mk nowWall (some tzoff)).addDays 1) 0 0
      (by norm_num) (by norm_num) (by norm_num) (by norm_num)).2.1
  · exact (replaceTime_spec ((PyDT.mk nowWall (some tzoff)).addDays 1) 0 0
      (by norm_num) (by norm_num) (by norm_num) (by norm_num)).2.2.1

/-- Witness for C5: one task of duration 20160 minutes (two weeks) at
epoch midnight conflicts with all 14 morning candidates. -/
theorem C5_fallback_guarantee_witness :
    find_next_available_slot true
        (.ok [TaskRow.mk 1 (some (some ⟨0, some 0⟩)) (some 20160) "pending"
          none none false]) "morning" 15 0 0 =
      { scheduled_at := anchor_to_timestamp "morning" 0 (searchStart 0 0),
        scheduled_text := "morning" } ∧
    searchStart 0 0 = ((PyDT.mk 0 (some 0)).addDays 1).replaceTime 0 0 ∧
    (searchStart 0 0).hour = 0 ∧
    (searchStart 0 0).minute = 0 ∧
    (searchStart 0 0).off = some 0 :=
  C5_fallback_guarantee
    [TaskRow.mk 1 (some (some ⟨0, some 0⟩)) (some 20160) "pending"
      none none false] "morning" 15 0 0 (by decide) (by decide)

/-- Claim C8: for a preference containing "morning" the candidate list
is "Morning Coffee" then "Mid-Morning", flattened over day offsets 0..6
in that order — each earlier day's candidates before any later day's —
and on well-formed rows the finder returns the first candidate of that
sequence without a conflict. -/
theorem C8_search_order (tasks : List TaskRow) (pref : String)
    (est tzoff nowWall : Int) (hwf : ∀ t ∈ tasks, wfRow t = true)
    (hm : containsSub (lowerStr pref) (lowerStr "morning") = true) :
    timeSlotsFor pref = ["Morning Coffee", "Mid-Morning"] ∧
    candidateList (timeSlotsFor pref) =
      [(0, "Morning Coffee"), (0, "Mid-Morning"),
       (1, "Morning Coffee"), (1, "Mid-Morning"),
       (2, "Morning Coffee"), (2, "Mid-Morning"),
       (3, "Morning Coffee"), (3, "Mid-Morning"),
       (4, "Morning Coffee"), (4, "Mid-Morning"),
       (5, "Morning Coffee"), (5, "Mid-Morning"),
       (6, "Morning Coffee"), (6, "Mid-Morning")] ∧
    find_next_available_slot true (.ok tasks) pref est tzoff nowWall =
      match (candidateList (timeSlotsFor pref)).find?
          (fun c => !hasConflictB tasks est
            (slotTimeFor tzoff (searchStart tzoff nowWall) c)) with
      | some c =>
        { scheduled_at := slotTimeFor tzoff (searchStart tzoff nowWall) c,
          scheduled_text := c.2 }
      | none =>
        { scheduled_at :=
            anchor_to_timestamp pref tzoff (searchStart tzoff nowWall),
          scheduled_text := pref } := by
  have hslots : timeSlotsFor pref = ["Morning Coffee", "Mid-Morning"] := by
    simp [timeSlotsFor, List.any_cons, hm]
  refine ⟨hslots, by rw [hslots]; rfl,
    find_next_spec tasks pref est tzoff nowWall hwf⟩

/-- Witness for C8: with no existing tasks and preference "morning", the
first candidate (day 0, "Morning Coffee": tomorrow 08:00) is returned. -/
theorem C8_search_order_witness :
    timeSlotsFor "morning" = ["Morning Coffee", "Mid-Morning"] ∧
    candidateList (timeSlotsFor "morning") =
      [(0, "Morning Coffee"), (0, "Mid-Morning"),
       (1, "Morning Coffee"), (1, "Mid-Morning"),
       (2, "Morning Coffee"), (2, "Mid-Morning"),
       (3, "Morning Coffee"), (3, "Mid-Morning"),
       (4, "Morning Coffee"), (4, "Mid-Morning"),
       (5, "Morning Coffee"), (5, "Mid-Morning"),
       (6, "Morning Coffee"), (6, "Mid-Morning")] ∧
    find_next_available_slot true (.ok []) "morning" 15 0 0 =
      match (candidateList (timeSlotsFor "morning")).find?
          (fun c => !hasConflictB [] 15
            (slotTimeFor 0 (searchStart 0 0) c)) with
      | some c =>
        { scheduled_at := slotTimeFor 0 (searchStart 0 0) c,
          scheduled_text := c.2 }
      | none =>
        { scheduled_at := anchor_to_timestamp "morning" 0 (searchStart 0 0),
          scheduled_text := "morning" } :=
  C8_search_order [] "morning" 15 0 0 (by decide) (by decide)

/-- Claim C9: running the sweep twice in immediate succession (same
`now`) on a store with distinct task ids reschedules any given task at
most once.  A task is picked up only when its status is not "completed"
and its parsed schedule is earlier than `now - 1 hour`; a successful
first-run reschedule rewrites its rows to a strictly future timestamp,
so the second run's overdue filter skips it: the two runs' id lists are
disjoint. -/
theorem C9_idempotent_sweep (supabaseOK : Bool) (state : List TaskRow)
    (tzoff nowWall : Int) (hN : (state.map TaskRow.id).Nodup) :
    (∀ tid ∈ (detect_and_reschedule_missed_tasks supabaseOK state tzoff nowWall).1,
       tid ∉ (detect_and_reschedule_missed_tasks supabaseOK
          (detect_and_reschedule_missed_tasks supabaseOK state tzoff nowWall).2
          tzoff nowWall).1) ∧
    (∀ tid ∈ (detect_and_reschedule_missed_tasks supabaseOK state tzoff nowWall).1,
       ∃ t ∈ state, t.id = tid ∧ (t.status == "completed") = false ∧
         ∃ x, t.scheduled_at = some (some x) ∧ x.off.isSome = true ∧
           x.instant <
             ((PyDT.mk nowWall (some tzoff)).addMinutes (-60)).instant) ∧
    (∀ tid ∈ (detect_and_reschedule_missed_tasks supabaseOK state tzoff nowWall).1,
       ∀ t ∈ (detect_and_reschedule_missed_tasks supabaseOK state tzoff nowWall).2,
         t.id = tid → ∃ x, t.scheduled_at = some (some x) ∧
           (PyDT.mk nowWall (some tzoff)).instant < x.instant) := by
  cases supabaseOK with
  | false =>
    refine ⟨?_, ?_, ?_⟩ <;> intro tid htid <;> simp [detect_and_reschedule_missed_tasks] at htid
  | true =>
    have hdet : detect_and_reschedule_missed_tasks true state tzoff nowWall =
        detectLoop true tzoff nowWall state state [] := rfl
    have hA := detectLoop_future true tzoff nowWall state state [] hN
      (by intro t _ h; simp at h) (by intro tid h; simp at h)
    have hB1 := detectLoop_overdue true tzoff nowWall state state []
    refine ⟨?_, ?_, ?_⟩
    · intro tid htid1 htid2
      rw [hdet] at htid1 htid2
      have hfut := hA tid htid1
      rcases detectLoop_overdue true tzoff nowWall
          (detectLoop true tzoff nowWall state state []).2
          (detectLoop true tzoff nowWall state state []).2 [] tid htid2 with
        hin | ⟨t, ht, hteq, _, x, hx, _, hovd⟩
      · simp at hin
      · obtain ⟨x2, hx2, hoff2, hwall2⟩ := hfut t ht hteq
        rw [hx] at hx2
        have hxx : x = x2 := by simpa using hx2
        rw [← hxx] at hoff2 hwall2
        simp only [PyDT.instant, PyDT.addMinutes, PyDT.addMicros, hoff2,
          Option.getD_some, usPerMin_eq] at hovd
        omega
    · intro tid htid
      rw [hdet] at htid
      rcases hB1 tid htid with hin | ⟨t, ht, hrest⟩
      · simp at hin
      · exact ⟨t, ht, hrest⟩
    · intro tid htid t ht hteq
      rw [hdet] at htid ht
      obtain ⟨x, hx, hoff, hwall⟩ := hA tid htid t ht hteq
      refine ⟨x, hx, ?_⟩
      simp only [PyDT.instant, hoff, Option.getD, usPerMin_eq]
      omega

/-- Witness for C9: one pending task scheduled two hours before `now`. -/
theorem C9_idempotent_sweep_witness :
    (∀ tid ∈ (detect_and_reschedule_missed_tasks true
        [TaskRow.mk 1 (some (some ⟨-(2 * usPerHour), some 0⟩)) (some 15)
          "pending" (some "Morning") none false] 0 0).1,
       tid ∉ (detect_and_reschedule_missed_tasks true
          (detect_and_reschedule_missed_tasks true
            [TaskRow.mk 1 (some (some ⟨-(2 * usPerHour), some 0⟩)) (some 15)
              "pending" (some "Morning") none false] 0 0).2 0 0).1) ∧
    (∀ tid ∈ (detect_and_reschedule_missed_tasks true
        [TaskRow.mk 1 (some (some ⟨-(2 * usPerHour), some 0⟩)) (some 15)
          "pending" (some "Morning") none false] 0 0).1,
       ∃ t ∈ [TaskRow.mk 1 (some (some ⟨-(2 * usPerHour), some 0⟩)) (some 15)
          "pending" (some "Morning") none false], t.id = tid ∧
         (t.status == "completed") = false ∧
         ∃ x, t.scheduled_at = some (some x) ∧ x.off.isSome = true ∧
           x.instant < ((PyDT.mk 0 (some 0)).addMinutes (-60)).instant) ∧
    (∀ tid ∈ (detect_and_reschedule_missed_tasks true
        [TaskRow.mk 1 (some (some ⟨-(2 * usPerHour), some 0⟩)) (some 15)
          "pending" (some "Morning") none false] 0 0).1,
       ∀ t ∈ (detect_and_reschedule_missed_tasks true
          [TaskRow.mk 1 (some (some ⟨-(2 * usPerHour), some 0⟩)) (some 15)
            "pending" (some "Morning") none false] 0 0).2,
         t.id = tid → ∃ x, t.scheduled_at = some (some x) ∧
           (PyDT.mk 0 (some 0)).instant < x.instant) :=
  C9_idempotent_sweep true
    [TaskRow.mk 1 (some (some ⟨-(2 * usPerHour), some 0⟩)) (some 15)
      "pending" (some "Morning") none false] 0 0 (by decide)

/-- Claim C5 counterexample: rows `[unparseable, two-week blocker]`.
Every candidate is conflicted (the blocker is within range of all 14),
yet the scan reaches the unparseable row before the blocker at the first
candidate and raises, so the function returns the `{now + 1 day}`
exception fallback — the preference text, but not the preference
resolved on the search-start date (08:00 tomorrow). -/
theorem C5_counterexample :
    (∀ c ∈ candidateList (timeSlotsFor "morning"),
      hasConflictB
        [TaskRow.mk 0 (some none) none "pending" none none false,
         TaskRow.mk 1 (some (some ⟨0, some 0⟩)) (some 20160) "pending"
           none none false] 15 (slotTimeFor 0 (searchStart 0 0) c) = true) ∧
    find_next_available_slot true
        (.ok [TaskRow.mk 0 (some none) none "pending" none none false,
          TaskRow.mk 1 (some (some ⟨0, some 0⟩)) (some 20160) "pending"
            none none false]) "morning" 15 0 0 ≠
      { scheduled_at := anchor_to_timestamp "morning" 0 (searchStart 0 0),
        scheduled_text := "morning" } ∧
    (find_next_available_slot true
        (.ok [TaskRow.mk 0 (some none) none "pending" none none false,
          TaskRow.mk 1 (some (some ⟨0, some 0⟩)) (some 20160) "pending"
            none none false]) "morning" 15 0 0).scheduled_text =
      "morning" := by decide
